import Mathlib

/-!
Verification development for the any2any audio/text pipeline.

The definitions below are a shallow embedding of the Python sources
`any2any_ai.py` and `audio_processor.py`:

* tokenization, stopword filtering, frequency counting, `keywords` and
  `summarize_text` (any2any_ai.py, lines 119-153);
* audio normalization `ensure_wav_16k_mono` (any2any_ai.py, lines 58-84)
  and `SpeechToText._prepare_audio` (audio_processor.py, lines 190-218),
  with the external ffmpeg transcoder abstracted as a conversion function;
* the decoder call discipline of `stt_audio_to_text` (any2any_ai.py,
  lines 98-116) and `SpeechToText.transcribe_audio_file`
  (audio_processor.py, lines 133-151), modelled as traces of calls made
  to the external Vosk recognizer;
* model loading (`SpeechToText._load_model`, `ensure_vosk_model`) and the
  exception-to-empty-string wrappers of `transcribe_audio_file` and
  `transcribe_microphone`.

Machine-level caveats of the model: Python `str.lower` and `str.strip`
are modelled on ASCII (the regex `[A-Za-z']+` only ever matches ASCII
characters anyway), and the float expression `1e-9` in the sentence
score is modelled as the exact rational `1/1000000000`; no property
proved below depends on the rounding of the score values.
-/

/-- ASCII lowercase mapping, modelling `str.lower()` as used before the
regex `[A-Za-z']+` (only ASCII letters can match the regex). -/
def toLowerAscii (c : Char) : Char :=
  if 65 ≤ c.toNat ∧ c.toNat ≤ 90 then Char.ofNat (c.toNat + 32) else c

/-- Character class of the regex `[A-Za-z']+`: ASCII letters and the
apostrophe (code point 39). -/
def isWordChar (c : Char) : Bool :=
  (97 ≤ c.toNat && c.toNat ≤ 122) || (65 ≤ c.toNat && c.toNat ≤ 90) || (c.toNat == 39)

/-- Accumulator pass extracting maximal runs of word characters,
modelling `re.findall(r"[A-Za-z']+", ...)`. -/
def tokensAux : List Char → List Char → List String
  | [], acc => if acc.isEmpty then [] else [String.mk acc.reverse]
  | c :: cs, acc =>
    if isWordChar c then tokensAux cs (c :: acc)
    else if acc.isEmpty then tokensAux cs []
    else String.mk acc.reverse :: tokensAux cs []

/-- Tokenization used by both `summarize_text` and `keywords`:
`re.findall(r"[A-Za-z']+", text.lower())`. -/
def tokenize (s : String) : List String :=
  tokensAux (s.data.map toLowerAscii) []

/-- The fixed stopword set of `summarize_text` and `keywords`
(any2any_ai.py lines 128-129 and 146-147), in source order. -/
def stopList : List String :=
  ["the", "a", "an", "and", "or", "but", "if", "then", "so", "of", "in", "on",
   "at", "to", "for", "from", "with", "as", "is", "are", "was", "were", "be",
   "been", "being", "by", "this", "that", "it",
   "you", "i", "he", "she", "we", "they", "them", "us", "our", "your", "his",
   "her", "their", "not", "no", "do", "does", "did", "will", "would", "can",
   "could", "should"]

/-- ASCII whitespace, modelling the regex class `\s` and `str.strip()`. -/
def pyIsSpace (c : Char) : Bool :=
  c.toNat == 32 || c.toNat == 9 || c.toNat == 10 ||
  c.toNat == 13 || c.toNat == 11 || c.toNat == 12

/-- Python `str.strip()`: remove leading and trailing whitespace. -/
def pyStrip (s : String) : String :=
  String.mk (((s.data.dropWhile pyIsSpace).reverse.dropWhile pyIsSpace).reverse)

/-- Python `freq[w] = freq.get(w, 0) + 1` on an insertion-ordered
association list (Python dicts preserve insertion order and updating an
existing key keeps its position). -/
def bump : List (String × Nat) → String → List (String × Nat)
  | [], w => [(w, 1)]
  | (x, n) :: rest, w =>
    if x = w then (x, n + 1) :: rest else (x, n) :: bump rest w

/-- Loop body of the frequency-table build: `if w in stop or len(w) <= 2:
continue` followed by the counter update. -/
def stepWord (acc : List (String × Nat)) (w : String) : List (String × Nat) :=
  if stopList.contains w ∨ w.length ≤ 2 then acc else bump acc w

/-- Frequency table built over a token list (shared by `summarize_text`
and `keywords`). -/
def buildFreq (ws : List String) : List (String × Nat) :=
  ws.foldl stepWord []

/-- Document frequency table of a text: `freq` in the source. -/
def freqList (text : String) : List (String × Nat) :=
  buildFreq (tokenize text)

/-- Comparison relation of Python `sorted(..., key=f, reverse=True)`:
element `a` may stay before `b` exactly when `f b ≤ f a`. -/
def keyRel {α : Type} {κ : Type} [LinearOrder κ] (f : α → κ) (a b : α) : Prop :=
  f b ≤ f a

instance {α κ : Type} [LinearOrder κ] (f : α → κ) : DecidableRel (keyRel f) :=
  fun a b => inferInstanceAs (Decidable (f b ≤ f a))

instance {α κ : Type} [LinearOrder κ] (f : α → κ) : IsTotal α (keyRel f) :=
  ⟨fun a b => le_total (f b) (f a)⟩

instance {α κ : Type} [LinearOrder κ] (f : α → κ) : IsTrans α (keyRel f) :=
  ⟨fun _ _ _ h₁ h₂ => le_trans h₂ h₁⟩

/-- Stable descending sort by a key function, modelling Python
`sorted(l, key=f, reverse=True)` (Python sort is stable, and stability
is kept under `reverse=True`). -/
def sortByKeyDesc {α : Type} {κ : Type} [LinearOrder κ] (f : α → κ) (l : List α) : List α :=
  List.insertionSort (keyRel f) l

/-- Full frequency ranking of `keywords`:
`sorted(freq.items(), key=lambda x: x[1], reverse=True)`. -/
def sortedFreq (text : String) : List (String × Nat) :=
  sortByKeyDesc (fun p : String × Nat => p.2) (freqList text)

/-- The `[:k]` slice of the ranked (word, count) items. -/
def keywordsPairs (text : String) (k : Nat) : List (String × Nat) :=
  (sortedFreq text).take k

/-- Embedding of `keywords(text, k)` (any2any_ai.py lines 144-153):
`[w for w, _ in sorted(freq.items(), key=lambda x: x[1], reverse=True)[:k]]`.
Note the comprehension keeps only the word of each pair. -/
def keywords (text : String) (k : Nat) : List String :=
  (keywordsPairs text k).map Prod.fst

/-- Sentence-ending punctuation for the lookbehind `(?<=[.!?])`. -/
def isEndPunct : Option Char → Bool
  | some c => c.toNat == 46 || c.toNat == 33 || c.toNat == 63
  | none => false

/-- State machine for `re.split(r'(?<=[.!?])\s+', text)`: the Bool flag
records that we are inside a whitespace separator run; `acc` is the
current segment reversed. -/
def splitAux : List Char → Bool → List Char → List String
  | [], _, acc => [String.mk acc.reverse]
  | c :: cs, true, acc =>
    if pyIsSpace c then splitAux cs true acc else splitAux cs false (c :: acc)
  | c :: cs, false, acc =>
    if pyIsSpace c && isEndPunct acc.head? then
      String.mk acc.reverse :: splitAux cs true []
    else splitAux cs false (c :: acc)

/-- Sentence segmentation of `summarize_text`:
`re.split(r'(?<=[.!?])\s+', text.strip())`. -/
def sents (text : String) : List String :=
  splitAux (pyStrip text).data false []

/-- Python `freq.get(t, 0)`. -/
def dictGet : List (String × Nat) → String → Nat
  | [], _ => 0
  | (x, n) :: rest, t => if x = t then n else dictGet rest t

/-- Sentence score of `summarize_text`:
`sum(freq.get(t, 0) for t in tokens) / (len(tokens) + 1e-9)`, with the
float literal modelled as the exact rational. -/
def scoreQ (freq : List (String × Nat)) (sent : String) : ℚ :=
  ((tokenize sent).map (fun t => (dictGet freq t : ℚ))).sum /
    (((tokenize sent).length : ℚ) + 1 / 1000000000)

/-- Embedding of
`ranked = sorted(enumerate(sents), key=lambda x: score(x[1]), reverse=True)`. -/
def rankedS (text : String) : List (Nat × String) :=
  sortByKeyDesc (fun p : Nat × String => scoreQ (freqList text) p.2) (sents text).enum

/-- Embedding of `keep_idx = sorted(i for i, _ in ranked[:max_sentences])`. -/
def keepIdx (text : String) (maxS : Nat) : List Nat :=
  List.insertionSort (fun a b => a ≤ b) (((rankedS text).take maxS).map Prod.fst)

/-- Embedding of `summarize_text(text, max_sentences)` (any2any_ai.py
lines 119-142). -/
def summarize_text (text : String) (maxS : Nat) : String :=
  if (sents text).length ≤ maxS then pyStrip text
  else String.intercalate " " ((keepIdx text maxS).map (fun i => (sents text).getD i ""))

/-- Abstraction of an audio input as seen by the two normalizers:
whether `wave.open` succeeds, and the header fields it reports.
`bytes` stands for the file content so that distinct streams compare
unequal byte-for-byte. -/
structure AudioStream where
  isWav : Bool
  channels : Nat
  sampWidth : Nat
  rate : Nat
  bytes : List Nat
deriving DecidableEq

/-- Canonical check of `ensure_wav_16k_mono`: readable WAV with
`ch == 1 and rate == 16000` (sample width is not checked there). -/
def canonicalW (s : AudioStream) : Bool :=
  s.isWav && s.channels == 1 && s.rate == 16000

/-- Canonical check of `SpeechToText._prepare_audio`: additionally
requires `getsampwidth() == 2`. -/
def canonicalP (s : AudioStream) : Bool :=
  s.isWav && s.channels == 1 && s.sampWidth == 2 && s.rate == 16000

/-- Embedding of `ensure_wav_16k_mono` (any2any_ai.py lines 58-84).
`conv` models a successful run of the external
`ffmpeg -ac 1 -ar 16000 -f wav` transcode; `ffmpegAvailable` models
`shutil.which("ffmpeg") is not None`. A failed parse and a parsed but
non-canonical header both fall through to the ffmpeg branch; with no
ffmpeg the function calls `fail`, i.e. prints to stderr and exits —
modelled as `Except.error`. -/
def ensure_wav_16k_mono (conv : AudioStream → AudioStream) (ffmpegAvailable : Bool)
    (s : AudioStream) : Except String AudioStream :=
  if canonicalW s then Except.ok s
  else if ffmpegAvailable then Except.ok (conv s)
  else Except.error "ffmpeg is required to convert audio to 16k mono WAV"

/-- Embedding of `SpeechToText._prepare_audio` (audio_processor.py lines
190-218). The whole body is wrapped in `try/except Exception`, and the
handler returns the original `audio_path`: an unreadable container
(`wave.open` raises, reached before any ffmpeg attempt), a missing
ffmpeg binary (`FileNotFoundError` from `subprocess.run`) and a failed
transcode (`CalledProcessError`, modelled by `conv s = none`) all
return the input unchanged. -/
def prepare_audio (conv : AudioStream → Option AudioStream) (ffmpegAvailable : Bool)
    (s : AudioStream) : AudioStream :=
  if !s.isWav then s
  else if s.channels == 1 && s.sampWidth == 2 && s.rate == 16000 then s
  else if ffmpegAvailable then (conv s).getD s
  else s

/-- Calls made to the external Vosk recognizer, in order. `accept d`
is `AcceptWaveform(d)`; `result`, `interimResult` and `finalResult`
model the `Result()`, `PartialResult()` and `FinalResult()` requests. -/
inductive DecCall where
  | accept (data : List Nat)
  | result
  | interimResult
  | finalResult
deriving DecidableEq

/-- Payload of an `accept` call, if any. -/
def acceptPayload : DecCall → Option (List Nat)
  | DecCall.accept d => some d
  | _ => none

/-- Fixed-size chunking pass: `budget` counts the slots left in the
current chunk (held reversed in `acc`). -/
def chunksAux {α : Type} (n : Nat) : List α → Nat → List α → List (List α)
  | [], _, acc => if acc.isEmpty then [] else [acc.reverse]
  | x :: xs, 0, acc => acc.reverse :: chunksAux n xs (n - 1) [x]
  | x :: xs, Nat.succ b, acc => chunksAux n xs b (x :: acc)

/-- Split a list into consecutive chunks of size `n` (last one possibly
shorter), modelling the `wf.readframes(4000)` read loop. -/
def chunksOfPos {α : Type} (n : Nat) (l : List α) : List (List α) :=
  chunksAux n l n []

/-- Decoder-call trace of `stt_audio_to_text` (any2any_ai.py lines
108-115): one `AcceptWaveform` per 4000-frame read, then one
`FinalResult` after the read loop ends. -/
def stt_audio_to_text_calls (pcm : List Nat) : List DecCall :=
  (chunksOfPos 4000 pcm).map DecCall.accept ++ [DecCall.finalResult]

/-- Decoder-call trace of `SpeechToText.transcribe_audio_file`
(audio_processor.py lines 139-147): the file is read whole
(`audio_file.read()`) and passed to a single `AcceptWaveform` call;
depending on its Bool return (`acceptRet`), either `Result()` or
`PartialResult()` is requested. -/
def transcribe_audio_file_calls (acceptRet : Bool) (pcm : List Nat) : List DecCall :=
  [DecCall.accept pcm, if acceptRet then DecCall.result else DecCall.interimResult]

/-- Result value of `stt_audio_to_text`: `decoderFinal` abstracts the
external recognizer, mapping the sequence of fed chunks to the optional
`"text"` field of `json.loads(rec.FinalResult())`; the source then does
`res.get("text", "").strip()`. -/
def stt_audio_to_text (decoderFinal : List (List Nat) → Option String) (pcm : List Nat) : String :=
  pyStrip ((decoderFinal (chunksOfPos 4000 pcm)).getD "")

/-- Result extraction of `SpeechToText.transcribe_audio_file` and
`transcribe_microphone`: `result.get('text', '').strip()` on the
`Result()` branch, `result.get('partial', '').strip()` otherwise. -/
def extract_text (acceptRet : Bool) (resultText interimText : Option String) : String :=
  if acceptRet then pyStrip (resultText.getD "") else pyStrip (interimText.getD "")

/-- Embedding of `SpeechToText._load_model` (audio_processor.py lines
118-131): if the model path does not exist, raise (re-raised by the
handler); the message mirrors the `FileNotFoundError`. -/
def load_model (assetExists : Bool) : Except String Unit :=
  if assetExists then Except.ok () else Except.error "Vosk model not found"

/-- Embedding of `SpeechToText.__init__`: the only fallible step is
`_load_model`, run once at construction. -/
def speechToText_init (assetExists : Bool) : Except String Unit :=
  load_model assetExists

/-- A transcription request through a fresh `SpeechToText`: construction
(and hence model load) happens before any decoder call; on success the
decode trace of `transcribe_audio_file` is produced. -/
def transcribe_request (assetExists : Bool) (acceptRet : Bool) (pcm : List Nat) :
    Except String (List DecCall) :=
  (speechToText_init assetExists).map (fun _ => transcribe_audio_file_calls acceptRet pcm)

/-- Embedding of `ensure_vosk_model` (any2any_ai.py lines 40-55):
no-op when the model directory exists; otherwise download and unpack,
calling `fail` (exit) when that raises. -/
def ensure_vosk_model (dirExists downloadOk : Bool) : Except String Unit :=
  if dirExists then Except.ok ()
  else if downloadOk then Except.ok ()
  else Except.error "Could not download or extract Vosk model"

/-- Top-level exception policy of `SpeechToText.transcribe_audio_file`
(audio_processor.py lines 133-151): the whole body runs inside
`try/except Exception`, and the handler logs and returns `""`. `body`
abstracts the outcome of the body (prepare, file read, decode,
extraction), `Except.error` standing for any raised exception. -/
def transcribe_audio_file (body : Except String String) : String :=
  match body with
  | Except.ok t => t
  | Except.error _ => ""

/-- Top-level exception policy of `SpeechToText.transcribe_microphone`
(audio_processor.py lines 153-188): identical catch-all returning `""`. -/
def transcribe_microphone (body : Except String String) : String :=
  match body with
  | Except.ok t => t
  | Except.error _ => ""

/-! ### Helper lemmas -/

/-- Filtering on a fixed key value commutes with `orderedInsert` under the
descending-by-key relation: the inserted element lands before every element
of equal key. -/
theorem filter_orderedInsert_key {α κ : Type} [LinearOrder κ] (f : α → κ) (a : α)
    (l : List α) (c : κ) :
    (List.orderedInsert (keyRel f) a l).filter (fun x => f x = c) =
      if f a = c then a :: l.filter (fun x => f x = c)
      else l.filter (fun x => f x = c) := by
  induction l with
  | nil =>
    by_cases h : f a = c <;> simp [List.orderedInsert, h]
  | cons b t ih =>
    by_cases hr : keyRel f a b
    · rw [List.orderedInsert, if_pos hr]
      by_cases h : f a = c <;> simp [List.filter_cons, h]
    · rw [List.orderedInsert, if_neg hr]
      have hab : f a < f b := not_le.mp hr
      by_cases hb : f b = c
      · have ha : f a ≠ c := by rw [← hb]; exact ne_of_lt hab
        simp [List.filter_cons, hb, ih, ha]
      · simp [List.filter_cons, hb, ih]

/-- Stability of the descending sort: elements sharing any key value keep
their input order. -/
theorem filter_sortByKeyDesc {α κ : Type} [LinearOrder κ] (f : α → κ) (l : List α) (c : κ) :
    (sortByKeyDesc f l).filter (fun x => f x = c) = l.filter (fun x => f x = c) := by
  induction l with
  | nil => rfl
  | cons a t ih =>
    have hstep : sortByKeyDesc f (a :: t) =
        List.orderedInsert (keyRel f) a (sortByKeyDesc f t) := rfl
    rw [hstep, filter_orderedInsert_key]
    by_cases h : f a = c <;> simp [List.filter_cons, h, ih]

/-- Keys appearing after a counter update were either the updated word or
already present. -/
theorem fst_mem_bump (l : List (String × Nat)) (w : String) :
    ∀ p ∈ bump l w, p.1 = w ∨ p.1 ∈ l.map Prod.fst := by
  induction l with
  | nil =>
    intro p hp
    simp [bump] at hp
    simp [hp]
  | cons q rest ih =>
    intro p hp
    rcases q with ⟨x, n⟩
    by_cases hx : x = w
    · rw [bump, if_pos hx] at hp
      rcases List.mem_cons.mp hp with h1 | h2
      · left; rw [h1, hx]
      · right; simp [List.mem_map]; exact Or.inr ⟨p.2, by simpa using h2⟩
    · rw [bump, if_neg hx] at hp
      rcases List.mem_cons.mp hp with h1 | h2
      · right; simp [h1]
      · rcases ih p h2 with h3 | h4
        · left; exact h3
        · right; simp at h4 ⊢; exact Or.inr h4

/-- Invariant of the frequency-table build: every recorded word passed the
stopword and length filters. -/
theorem good_foldl_stepWord (ws : List String) :
    ∀ acc : List (String × Nat),
      (∀ p ∈ acc, stopList.contains p.1 = false ∧ 2 < p.1.length) →
      ∀ p ∈ List.foldl stepWord acc ws, stopList.contains p.1 = false ∧ 2 < p.1.length := by
  induction ws with
  | nil => intro acc h p hp; exact h p hp
  | cons w rest ih =>
    intro acc h p hp
    rw [List.foldl_cons] at hp
    refine ih (stepWord acc w) ?_ p hp
    intro q hq
    unfold stepWord at hq
    by_cases hc : stopList.contains w ∨ w.length ≤ 2
    · rw [if_pos hc] at hq; exact h q hq
    · rw [if_neg hc] at hq
      push_neg at hc
      rcases fst_mem_bump acc w q hq with h1 | h2
      · rw [h1]
        refine ⟨by simpa using hc.1, by omega⟩
      · obtain ⟨r, hr, hrq⟩ := List.mem_map.mp h2
        rw [← hrq]
        exact h r hr

/-- Every entry of the document frequency table is a kept (non-stopword,
length above 2) token. -/
theorem mem_freqList_good (text : String) :
    ∀ p ∈ freqList text, stopList.contains p.1 = false ∧ 2 < p.1.length :=
  good_foldl_stepWord (tokenize text) [] (by simp)

/-- Concatenating the produced chunks restores the input (after the pending
accumulator). -/
theorem chunksAux_join {α : Type} (n : Nat) :
    ∀ (l : List α) (b : Nat) (acc : List α),
      (chunksAux n l b acc).flatten = acc.reverse ++ l := by
  intro l
  induction l with
  | nil =>
    intro b acc
    by_cases h : acc.isEmpty
    · rw [chunksAux, if_pos h, List.isEmpty_iff.mp h]; rfl
    · rw [chunksAux, if_neg h]; simp
  | cons x xs ih =>
    intro b acc
    cases b with
    | zero => simp [chunksAux, ih]
    | succ m => simp [chunksAux, ih]

/-- The chunking pass loses no data. -/
theorem chunksOfPos_join {α : Type} (n : Nat) (l : List α) :
    (chunksOfPos n l).flatten = l := by
  simpa using chunksAux_join n l n []

/-- Size bound for every produced chunk. -/
theorem chunksAux_length_le {α : Type} (n : Nat) (hn : 0 < n) :
    ∀ (l : List α) (b : Nat) (acc : List α),
      ∀ c ∈ chunksAux n l b acc, c.length ≤ max (acc.length + b) n := by
  intro l
  induction l with
  | nil =>
    intro b acc c hc
    rw [chunksAux] at hc
    by_cases h : acc.isEmpty
    · rw [if_pos h] at hc; simp at hc
    · rw [if_neg h] at hc
      simp at hc
      rw [hc, List.length_reverse]
      omega
  | cons x xs ih =>
    intro b acc c hc
    cases b with
    | zero =>
      rw [chunksAux] at hc
      rcases List.mem_cons.mp hc with h1 | h2
      · rw [h1, List.length_reverse]; omega
      · have := ih (n - 1) [x] c h2
        simp at this
        omega
    | succ m =>
      rw [chunksAux] at hc
      have := ih m (x :: acc) c hc
      simp at this
      omega

/-- Every chunk produced by `chunksOfPos n` has at most `n` elements. -/
theorem chunksOfPos_length_le {α : Type} (n : Nat) (hn : 0 < n) (l : List α) :
    ∀ c ∈ chunksOfPos n l, c.length ≤ n := by
  intro c hc
  have := chunksAux_length_le n hn l n [] c hc
  simpa using this

/-- Projecting the accept payloads of mapped accept calls is the identity. -/
theorem filterMap_accept (cs : List (List Nat)) :
    (cs.map DecCall.accept).filterMap acceptPayload = cs := by
  induction cs with
  | nil => rfl
  | cons c t ih => simp [List.filterMap_cons, acceptPayload, ih]

/-- A canonical stream takes the no-op fast path of `ensure_wav_16k_mono`. -/
theorem ensure_wav_canonical (conv : AudioStream → AudioStream) (ffmpeg : Bool)
    (s : AudioStream) (h : canonicalW s = true) :
    ensure_wav_16k_mono conv ffmpeg s = Except.ok s := by
  simp [ensure_wav_16k_mono, h]

/-- A canonical stream (in the stricter `_prepare_audio` sense) takes the
no-op fast path of `prepare_audio`. -/
theorem prepare_audio_canonical (conv : AudioStream → Option AudioStream) (ffmpeg : Bool)
    (s : AudioStream) (h : canonicalP s = true) :
    prepare_audio conv ffmpeg s = s := by
  simp [canonicalP, Bool.and_eq_true] at h
  simp [prepare_audio, h]

/-! ### Claims -/

/-- Claim C1, counterexample: at the claimed scenario input, the (word,
frequency) pairs `[("cat", 3), ("dog", 2)]` exist only internally; the
function returns the bare words `["cat", "dog"]`, not the pairs. -/
theorem c1_counterexample :
    keywordsPairs "dog dog cat cat cat bird" 2 = [("cat", 3), ("dog", 2)] ∧
    keywords "dog dog cat cat cat bird" 2 = ["cat", "dog"] := by
  exact ⟨by decide, by decide⟩

/-- Claim C1 as amended: for every text and k, `keywords` returns at most
k words (the first components of the ranked (word, frequency) pairs); the
underlying pairs are sorted by descending frequency, equal-frequency
words keep their first-seen build order (stability as a filter identity),
and the scenario input yields `["cat", "dog"]`. -/
theorem c1_keywords_top_k :
    ∀ (text : String) (k : Nat),
      (keywords text k).length ≤ k ∧
      keywords text k = (keywordsPairs text k).map Prod.fst ∧
      List.Sorted (keyRel (fun p : String × Nat => p.2)) (keywordsPairs text k) ∧
      (∀ c : Nat, (sortedFreq text).filter (fun p => p.2 = c) =
        (freqList text).filter (fun p => p.2 = c)) ∧
      keywords "dog dog cat cat cat bird" 2 = ["cat", "dog"] := by
  intro text k
  refine ⟨?_, rfl, ?_, ?_, by decide⟩
  · rw [keywords, List.length_map]
    exact List.length_take_le k _
  · exact List.Pairwise.sublist (List.take_sublist k _)
      (List.sorted_insertionSort _ (freqList text))
  · intro c
    exact filter_sortByKeyDesc (fun p : String × Nat => p.2) (freqList text) c

/-- Claim C2, counterexample: an input with surrounding whitespace and at
most `max_sentences` sentences is returned stripped, not unchanged. -/
theorem c2_counterexample :
    (sents " hi ").length ≤ 3 ∧ summarize_text " hi " 3 ≠ " hi " := by
  exact ⟨by decide, by decide⟩

/-- Claim C2 as amended: for every text whose sentence count is at most
`max_sentences`, `summarize_text` returns `text.strip()` (the input with
leading and trailing whitespace removed), hence the input itself exactly
when it carries no surrounding whitespace. -/
theorem c2_summarize_noop :
    ∀ (text : String) (maxS : Nat), (sents text).length ≤ maxS →
      summarize_text text maxS = pyStrip text := by
  intro text maxS h
  rw [summarize_text, if_pos h]

/-- Claim C2 witness: concrete no-op instance. -/
theorem c2_witness :
    (sents "hi there.").length ≤ 3 ∧ summarize_text "hi there." 3 = pyStrip "hi there." :=
  ⟨by decide, c2_summarize_noop "hi there." 3 (by decide)⟩

/-- Claim C3, counterexample: a non-canonical WAV stream prepared while
ffmpeg is unavailable is silently returned unconverted by
`SpeechToText._prepare_audio` (the catch-all handler swallows the
`FileNotFoundError`), instead of any fatal condition. -/
theorem c3_counterexample :
    prepare_audio (fun _ => none) false (AudioStream.mk true 2 2 44100 [7]) =
      AudioStream.mk true 2 2 44100 [7] ∧
    canonicalW (AudioStream.mk true 2 2 44100 [7]) = false := by
  exact ⟨rfl, rfl⟩

/-- Claim C3 as amended: when the input is not canonical and ffmpeg is
unavailable, the CLI normalizer `ensure_wav_16k_mono` fails with the
fatal, user-visible error (and never returns the unconverted input),
while `SpeechToText._prepare_audio` catches the failure and returns the
original unconverted input. -/
theorem c3_ffmpeg_missing :
    ∀ (conv : AudioStream → AudioStream) (convP : AudioStream → Option AudioStream)
      (s : AudioStream), canonicalW s = false →
      ensure_wav_16k_mono conv false s =
        Except.error "ffmpeg is required to convert audio to 16k mono WAV" ∧
      prepare_audio convP false s = s := by
  intro conv convP s h
  constructor
  · simp [ensure_wav_16k_mono, h]
  · rw [prepare_audio]
    by_cases hw : s.isWav
    · by_cases hc : (s.channels == 1 && s.sampWidth == 2 && s.rate == 16000) = true
      · simp [hw, hc]
      · simp [hw, hc]
    · simp [hw]

/-- Claim C3 witness: concrete stereo 44.1 kHz stream. -/
theorem c3_witness :
    ensure_wav_16k_mono (fun x => x) false (AudioStream.mk true 2 2 44100 [7]) =
      Except.error "ffmpeg is required to convert audio to 16k mono WAV" ∧
    prepare_audio (fun _ => none) false (AudioStream.mk true 2 2 44100 [7]) =
      AudioStream.mk true 2 2 44100 [7] :=
  c3_ffmpeg_missing (fun x => x) (fun _ => none) (AudioStream.mk true 2 2 44100 [7]) rfl

/-- Claim C4, counterexample: `SpeechToText.transcribe_audio_file` feeds
the decoder the entire buffer (here 4001 frames, above the 4000-frame
chunk size) in a single `AcceptWaveform` call, and requests `Result` or
`PartialResult`, never `FinalResult`. -/
theorem c4_counterexample :
    transcribe_audio_file_calls true (List.replicate 4001 0) =
      [DecCall.accept (List.replicate 4001 0), DecCall.result] ∧
    ¬ (List.replicate 4001 0).length ≤ 4000 := by
  refine ⟨rfl, ?_⟩
  rw [List.length_replicate]
  omega

/-- Claim C4 as amended: the CLI path `stt_audio_to_text` feeds the
normalized PCM in chunks of at most 4000 frames whose concatenation is
the whole buffer, requesting `FinalResult` exactly once, after the final
chunk; the `SpeechToText.transcribe_audio_file` path instead performs a
single whole-buffer `AcceptWaveform` call. -/
theorem c4_chunked_decode :
    ∀ pcm : List Nat,
      (∀ c ∈ chunksOfPos 4000 pcm, c.length ≤ 4000) ∧
      ((stt_audio_to_text_calls pcm).filterMap acceptPayload).flatten = pcm ∧
      (stt_audio_to_text_calls pcm).getLast? = some DecCall.finalResult ∧
      DecCall.finalResult ∉ (stt_audio_to_text_calls pcm).dropLast ∧
      (∀ b : Bool, transcribe_audio_file_calls b pcm =
        [DecCall.accept pcm, if b then DecCall.result else DecCall.interimResult]) := by
  intro pcm
  refine ⟨chunksOfPos_length_le 4000 (by omega) pcm, ?_, ?_, ?_, fun b => rfl⟩
  · rw [stt_audio_to_text_calls, List.filterMap_append, filterMap_accept]
    simp [acceptPayload]
    exact chunksOfPos_join 4000 pcm
  · rw [stt_audio_to_text_calls]
    exact List.getLast?_concat _
  · rw [stt_audio_to_text_calls, List.dropLast_concat]
    simp [List.mem_map]

/-- Claim C4 witness: concrete three-frame buffer. -/
theorem c4_witness :
    (List.replicate 3 0).length ≤ 4000 ∧
    ((stt_audio_to_text_calls (List.replicate 3 0)).filterMap acceptPayload).flatten =
      List.replicate 3 0 :=
  ⟨(c4_chunked_decode (List.replicate 3 0)).1 (List.replicate 3 0) (by decide),
   (c4_chunked_decode (List.replicate 3 0)).2.1⟩

/-- Claim C5: the summary keeps original sentence order — the selected
index list is sorted ascending no matter what the scores are — and the
ranking is a stable sort on score: for every score value, the ranked
list restricted to that score equals the enumerated sentence list
restricted to it, preserving original relative order of ties. -/
theorem c5_summary_order :
    ∀ (text : String) (maxS : Nat),
      List.Sorted (fun a b => a ≤ b) (keepIdx text maxS) ∧
      (∀ q : ℚ, (rankedS text).filter (fun p => scoreQ (freqList text) p.2 = q) =
        (sents text).enum.filter (fun p => scoreQ (freqList text) p.2 = q)) := by
  intro text maxS
  constructor
  · exact List.sorted_insertionSort _ _
  · intro q
    exact filter_sortByKeyDesc (fun p : Nat × String => scoreQ (freqList text) p.2)
      (sents text).enum q

/-- Claim C6, counterexample: an 8-bit, 1-channel, 16 kHz WAV is
canonical in the sense of the claim (1 channel, 16000 Hz WAV), yet
`SpeechToText._prepare_audio` transcodes it (its fast path further
requires 16-bit samples), so normalization of an already-canonical
stream is not always the unchanged input. -/
theorem c6_counterexample :
    canonicalW (AudioStream.mk true 1 1 16000 [5]) = true ∧
    prepare_audio (fun _ => some (AudioStream.mk true 1 2 16000 [])) true
        (AudioStream.mk true 1 1 16000 [5]) =
      AudioStream.mk true 1 2 16000 [] ∧
    AudioStream.mk true 1 2 16000 [] ≠ AudioStream.mk true 1 1 16000 [5] := by
  exact ⟨rfl, rfl, by decide⟩

/-- Claim C6 as amended: `ensure_wav_16k_mono` returns an
already-canonical (1-channel, 16 kHz WAV) stream unchanged and is
idempotent; `SpeechToText._prepare_audio` returns a stream unchanged
when it is canonical in its stricter sense (also 16-bit samples) and is
likewise idempotent — both under the contract that the external
transcode emits canonical output. -/
theorem c6_normalize_idempotent :
    ∀ (conv : AudioStream → AudioStream) (convP : AudioStream → Option AudioStream),
      (∀ x, canonicalW (conv x) = true) →
      (∀ x t, convP x = some t → canonicalP t = true) →
      ∀ (ffmpeg : Bool) (s : AudioStream),
        (canonicalW s = true → ensure_wav_16k_mono conv ffmpeg s = Except.ok s) ∧
        ((ensure_wav_16k_mono conv ffmpeg s).bind (ensure_wav_16k_mono conv ffmpeg) =
          ensure_wav_16k_mono conv ffmpeg s) ∧
        (canonicalP s = true → prepare_audio convP ffmpeg s = s) ∧
        (prepare_audio convP ffmpeg (prepare_audio convP ffmpeg s) =
          prepare_audio convP ffmpeg s) := by
  intro conv convP hW hP ffmpeg s
  refine ⟨ensure_wav_canonical conv ffmpeg s, ?_, prepare_audio_canonical convP ffmpeg s, ?_⟩
  · by_cases h : canonicalW s = true
    · rw [ensure_wav_canonical conv ffmpeg s h]
      simpa [Except.bind] using ensure_wav_canonical conv ffmpeg s h
    · cases ffmpeg with
      | false => simp [ensure_wav_16k_mono, h, Except.bind]
      | true =>
        have h1 : ensure_wav_16k_mono conv true s = Except.ok (conv s) := by
          simp [ensure_wav_16k_mono, h]
        rw [h1]
        simpa [Except.bind] using ensure_wav_canonical conv true (conv s) (hW s)
  · by_cases hw : s.isWav
    · by_cases hc : (s.channels == 1 && s.sampWidth == 2 && s.rate == 16000) = true
      · have h1 : prepare_audio convP ffmpeg s = s := by
          rw [prepare_audio]; simp [hw, hc]
        rw [h1, h1]
      · cases ffmpeg with
        | false =>
          have h1 : prepare_audio convP false s = s := by
            rw [prepare_audio]; simp [hw, hc]
          rw [h1, h1]
        | true =>
          cases hcv : convP s with
          | none =>
            have h1 : prepare_audio convP true s = s := by
              rw [prepare_audio]; simp [hw, hc, hcv]
            rw [h1, h1]
          | some t =>
            have h1 : prepare_audio convP true s = t := by
              rw [prepare_audio]; simp [hw, hc, hcv]
            rw [h1]
            exact prepare_audio_canonical convP true t (hP s t hcv)
    · have h1 : prepare_audio convP ffmpeg s = s := by
        rw [prepare_audio]; simp [hw]
      rw [h1, h1]

/-- Claim C6 witness: concrete canonical stream and canonical-output
transcoders. -/
theorem c6_witness :
    ensure_wav_16k_mono (fun _ => AudioStream.mk true 1 2 16000 []) true
        (AudioStream.mk true 1 2 16000 [3]) =
      Except.ok (AudioStream.mk true 1 2 16000 [3]) ∧
    prepare_audio (fun _ => some (AudioStream.mk true 1 2 16000 [])) true
        (AudioStream.mk true 1 2 16000 [3]) =
      AudioStream.mk true 1 2 16000 [3] := by
  have h := c6_normalize_idempotent (fun _ => AudioStream.mk true 1 2 16000 [])
    (fun _ => some (AudioStream.mk true 1 2 16000 []))
    (fun _ => rfl) (fun x t ht => by cases ht; rfl)
    true (AudioStream.mk true 1 2 16000 [3])
  exact ⟨h.1 rfl, h.2.2.1 rfl⟩

/-- Claim C7: with the model asset absent, a transcription request
through a fresh `SpeechToText` fails at construction (the `_load_model`
error) before any decoder call is made; with the asset present the
decode proceeds, and `ensure_vosk_model` is a no-op when the model
directory already exists. -/
theorem c7_model_load_fatal :
    ∀ (acceptRet : Bool) (pcm : List Nat) (dl : Bool),
      transcribe_request false acceptRet pcm = Except.error "Vosk model not found" ∧
      transcribe_request true acceptRet pcm =
        Except.ok (transcribe_audio_file_calls acceptRet pcm) ∧
      ensure_vosk_model true dl = Except.ok () := by
  intro a pcm dl
  exact ⟨rfl, rfl, rfl⟩

/-- Claim C8: when the decoder never reaches a finalized state (its
final JSON carries no text, or empty text — e.g. silence or an empty
waveform), `stt_audio_to_text` returns the empty string as an ordinary
value, and the `transcribe_audio_file` extraction likewise yields the
empty string on empty decoder output; no error path exists for this
case. -/
theorem c8_empty_transcript :
    ∀ (decoderFinal : List (List Nat) → Option String) (pcm : List Nat) (b : Bool),
      (decoderFinal (chunksOfPos 4000 pcm) = none →
        stt_audio_to_text decoderFinal pcm = "") ∧
      (decoderFinal (chunksOfPos 4000 pcm) = some "" →
        stt_audio_to_text decoderFinal pcm = "") ∧
      extract_text b none none = "" := by
  intro dec pcm b
  refine ⟨?_, ?_, ?_⟩
  · intro h
    rw [stt_audio_to_text, h]
    rfl
  · intro h
    rw [stt_audio_to_text, h]
    rfl
  · cases b <;> rfl

/-- Claim C8 witness: empty waveform with a silent decoder. -/
theorem c8_witness :
    stt_audio_to_text (fun _ => none) [] = "" ∧ extract_text true none none = "" :=
  ⟨(c8_empty_transcript (fun _ => none) [] true).1 rfl,
   (c8_empty_transcript (fun _ => none) [] true).2.2⟩

/-- Claim C9: no stopword and no word of length at most 2 ever appears
in the output of `keywords`, for any input text and any k. -/
theorem c9_keywords_filtered :
    ∀ (text : String) (k : Nat) (w : String), w ∈ keywords text k →
      stopList.contains w = false ∧ 2 < w.length := by
  intro text k w hw
  obtain ⟨p, hp, hpw⟩ := List.mem_map.mp hw
  have hp2 : p ∈ sortedFreq text := List.take_subset k _ hp
  have hp3 : p ∈ freqList text := (List.perm_insertionSort _ (freqList text)).subset hp2
  rw [← hpw]
  exact mem_freqList_good text p hp3

/-- Claim C9 witness: concrete keyword membership. -/
theorem c9_witness : stopList.contains "cat" = false ∧ 2 < String.length "cat" :=
  c9_keywords_filtered "cat cat dog" 2 "cat" (by decide)

/-- Claim C10: the public file and microphone transcription methods map
every internal exception to the empty string, which is exactly the value
returned for a valid empty transcript — an internal error and an empty
result are indistinguishable at this interface. -/
theorem c10_never_raises :
    ∀ e : String,
      transcribe_audio_file (Except.error e) = "" ∧
      transcribe_microphone (Except.error e) = "" ∧
      transcribe_audio_file (Except.error e) = transcribe_audio_file (Except.ok "") ∧
      transcribe_microphone (Except.error e) = transcribe_microphone (Except.ok "") := by
  intro e
  exact ⟨rfl, rfl, rfl, rfl⟩
